import Mathlib

/-!
# Verification of the autobisect regression-bisection engine

Shallow embedding of the core of `src/core/bisect.py` and `src/util/hgCmds.py`:
the search loop with its skip counter, baseline establishment, the window
update in `bisectLabel`, the merge blame verifier `checkBlameParents`, the
changeset-message sanitizer `sanitizeCsetMsg`, and the bisect-message hash
extractor `getCsetHashFromBisectMsg`.

Python strings are modelled as `List Char` where character-level operations
matter (split/join/startswith/in), and as Lean `String` where they are only
compared for equality (classification labels, revision ids).  Fallible code
is modelled with `Except`/`Option`.
-/

set_option autoImplicit false

namespace Autobisect

/-! ## Search loop (src/core/bisect.py lines 86-117)

`Bisector.bisect` initialises `iter_count = 1`, `skip_count = 0` and runs
`while current_rev is not None:`.  Each iteration calls the evaluator and, if
the label is `'skip'`, increments `skip_count` and breaks out of the loop
when `skip_count > 20` (lines 97-105); otherwise `skip_count` is untouched.
`iter_count` is incremented at line 114 (skipped when the loop breaks).
`current_rev` is never reassigned inside the loop (the `bisectLabel` call at
lines 109-112 is inside a string literal, i.e. commented out), so the loop
can never exit through its `while` condition; the evaluator's successive
answers are modelled as a finite list of label strings, and exhausting that
list means the loop is still running. -/

/-- How a run of the `while` loop of `Bisector.bisect` ended within the
modelled window of evaluator answers. -/
inductive LoopExit where
  | skipAbort
  | exhausted
  deriving DecidableEq, Repr

/-- The constant defined at src/core/bisect.py line 24.  It is not referenced
anywhere else in the file; in particular the search loop never compares
`iter_count` against it. -/
def MAX_ITERATIONS : Nat := 100

/-- The search loop of `Bisector.bisect` (lines 93-117), as a function of the
stream of labels produced by the evaluator and of the current
`iter_count`/`skip_count`.  Returns how the loop exited together with the
final `iter_count` and `skip_count`. -/
def searchLoop (labels : List String) (ic sc : Nat) : LoopExit × Nat × Nat :=
  match labels with
  | [] => (LoopExit.exhausted, ic, sc)
  | l :: ls =>
    if l == "skip" then
      if 20 < sc + 1 then (LoopExit.skipAbort, ic, sc + 1)
      else searchLoop ls (ic + 1) (sc + 1)
    else searchLoop ls (ic + 1) sc

/-! ## Baseline establishment (src/core/bisect.py lines 40-58)

`establish_baseline` first evaluates the end revision; if the result is
`None` or the string `"skip"` it fails (lines 46-48).  It then evaluates the
start revision and succeeds exactly when that result is `None`
(lines 55-58).  `Bisector.bisect` returns before entering the search loop
when `establish_baseline` returns `False` (lines 72-76). -/

/-- Result of the end-revision and start-revision checks of
`Bisector.establish_baseline`, as a function of the two evaluator results.
The evaluator (`evaluate_testcase`) yields `none` when the testcase does not
reproduce, the string `"skip"` when the revision is untestable, and a crash
signature string otherwise. -/
def establish_baseline (end_result start_result : Option String) : Bool :=
  if end_result = none ∨ end_result = some "skip" then false
  else if start_result = none then true
  else false

/-- The GOOD/BAD/SKIP classification of the data model. -/
inductive Classification where
  | good
  | bad
  | skip
  deriving DecidableEq, Repr

/-- Modelled from the spec: `evaluate_testcase` is not under src/ (only its
callers in `establish_baseline` are).  Per spec sections 4.2-4.3 and the code
comments at lines 45 and 50-51 ("Test to make sure the end revision
crashes" / "... the start revision doesn't"), a `None` result means the
regression did not reproduce (GOOD), the literal `"skip"` means the revision
was untestable (SKIP), and any other value is a crash signature (BAD). -/
def classifyResult : Option String → Classification
  | none => Classification.good
  | some s => if s = "skip" then Classification.skip else Classification.bad

/-! ## Window update in `bisectLabel` (src/core/bisect.py lines 238-248)

After telling hg the label of the evaluated revision, `bisectLabel` parses
the next candidate `currRev` out of hg's message (line 231) and then updates
the window: `start` is the good boundary (`startRepo`), `end` the bad
boundary (`endRepo`).  `hgLabel` is one of `"good"`, `"bad"`, `"skip"`
(assert at line 206). -/

/-- Lines 238-248 of `bisectLabel`: `end = currRev` for `'bad'`,
`start = currRev` for `'good'`, `pass` for `'skip'`. -/
def updateWindow (hgLabel : String) (currRev startRepo endRepo : List Char) :
    List Char × List Char :=
  let start := startRepo
  let e := endRepo
  if hgLabel == "bad" then (start, currRev)
  else if hgLabel == "good" then (currRev, e)
  else (start, e)

/-! ## End of `Bisector.bisect` (src/core/bisect.py lines 119-128)

After the search loop, line 119 executes `if blamedRev is not None:`.  The
name `blamedRev` is never assigned in the scope of `bisect`: the local names
assigned before line 119 are the parameter `options` (line 60), `start_rev`
(67), `end_rev` (68), `labels` (86), `iter_count` (88), `skip_count` (89),
`blame` (90), `current_rev` (91) and, inside the loop, `start_time` (94),
`label` (95), `end_time` (115), `elapsed` (116); the only assignment to a
name `blamedRev` sits inside the string literal at lines 109-112 and is
never executed.  Reading an unbound local name raises `NameError` in Python,
so the cleanup statements at lines 123-128 (`hg bisect -U -r`,
`hg update -C -r default`, `destroyPyc`) come after a statement that always
raises, and there is no `try`/`finally` around the loop. -/

/-- Local names bound in `Bisector.bisect` before line 119 executes. -/
def bisectLocalNames : List String :=
  ["options", "start_rev", "end_rev", "labels", "iter_count", "skip_count",
   "blame", "current_rev", "start_time", "label", "end_time", "elapsed"]

/-- Outcome of the code following the search loop. -/
inductive PostLoopOutcome where
  | nameErrorAt (name : String)
  | cleanupRun
  deriving DecidableEq, Repr

/-- Lines 119-128 of `Bisector.bisect`: line 119 reads the name `blamedRev`;
if it is unbound a `NameError` is raised and the cleanup at lines 123-128 is
never reached, otherwise execution goes on to the cleanup. -/
def bisectPostLoop (bound : List String) : PostLoopOutcome :=
  if bound.contains "blamedRev" then PostLoopOutcome.cleanupRun
  else PostLoopOutcome.nameErrorAt "blamedRev"

/-- Whether the cleanup phase (lines 123-128) runs. -/
def cleanupReached (bound : List String) : Bool :=
  match bisectPostLoop bound with
  | PostLoopOutcome.cleanupRun => true
  | PostLoopOutcome.nameErrorAt _ => false

/-! ## Python single-character `str.split` / `str.join` / `in`

Python strings are modelled as `List Char`.  `s.split(sep)` with a
one-character separator splits at every occurrence and keeps empty pieces,
so it never returns an empty list; `sep.join` is its inverse. -/

/-- Prepend a character to the first piece of a split (helper for
`pySplit`). -/
def consHead (c : Char) : List (List Char) → List (List Char)
  | [] => [[c]]
  | t :: ts => (c :: t) :: ts

/-- Python `s.split(sep)` for a single-character `sep`. -/
def pySplit (sep : Char) : List Char → List (List Char)
  | [] => [[]]
  | c :: cs => if c = sep then [] :: pySplit sep cs else consHead c (pySplit sep cs)

/-- Python `sep.join(ts)` for a single-character `sep`. -/
def pyJoin (sep : Char) : List (List Char) → List Char
  | [] => []
  | [t] => t
  | t :: t' :: ts => t ++ sep :: pyJoin sep (t' :: ts)

/-- Python `pat in s` (substring containment). -/
def pyIn (pat : List Char) : List Char → Bool
  | [] => pat.isEmpty
  | c :: cs => pat.isPrefixOf (c :: cs) || pyIn pat cs

/-! ## Message sanitizer (src/core/bisect.py lines 191-201)

`sanitizeCsetMsg(msg, repo)` splits `msg` on newlines; a line containing
`<`, `@` and `>` loses its last space-delimited token, otherwise a line
starting with `changeset:` is rewritten to a canonical URL when the repo
path contains `mozilla-central`; the lines are re-joined with newlines. -/

/-- The marker `'changeset:'` of line 198. -/
def csetPrefixL : List Char := "changeset:".toList

/-- The repository-name fragment `'mozilla-central'` of line 198. -/
def mozillaCentralL : List Char := "mozilla-central".toList

/-- The replacement head of line 199. -/
def csetUrlL : List Char :=
  "changeset:   https://hg.mozilla.org/mozilla-central/rev/".toList

/-- The per-line body of the loop at lines 195-200. -/
def sanitizeLine (repo line : List Char) : List Char :=
  if line.contains '<' && line.contains '@' && line.contains '>' then
    pyJoin ' ' ((pySplit ' ' line).dropLast)
  else if csetPrefixL.isPrefixOf line && pyIn mozillaCentralL repo then
    csetUrlL ++ (pySplit ':' line).getLastD []
  else line

/-- `sanitizeCsetMsg` (lines 191-201). -/
def sanitizeCsetMsg (msg repo : List Char) : List Char :=
  pyJoin '\n' ((pySplit '\n' msg).map (sanitizeLine repo))

/-- The condition of line 196: the line contains `<`, `@` and `>`. -/
def emailCond (line : List Char) : Bool :=
  line.contains '<' && line.contains '@' && line.contains '>'

/-- Line 197: drop the last space-delimited token. -/
def emailRewrite (line : List Char) : List Char :=
  pyJoin ' ' ((pySplit ' ' line).dropLast)

/-- The condition of line 198. -/
def csetCond (repo line : List Char) : Bool :=
  csetPrefixL.isPrefixOf line && pyIn mozillaCentralL repo

/-- Line 199: replace everything up to the last `:` by the canonical URL. -/
def csetRewrite (line : List Char) : List Char :=
  csetUrlL ++ (pySplit ':' line).getLastD []

/-- Hypothesis of the amended idempotence claim for one line: stripping the
last token of an email-shaped line must remove at least one of the three
marker characters, and the changeset-URL rule must not fire for the line. -/
def lineOK (repo line : List Char) : Prop :=
  (emailCond line = true → emailCond (emailRewrite line) = false)
  ∧ csetCond repo line = false

instance lineOK_decidable (repo line : List Char) : Decidable (lineOK repo line) :=
  inferInstanceAs (Decidable
    ((emailCond line = true → emailCond (emailRewrite line) = false)
      ∧ csetCond repo line = false))

/-! ## getCsetHashFromBisectMsg (src/util/hgCmds.py lines 32-37)

`re.compile(r"(^|.* )(\d+):(\w{12}).*").match(str)` anchors at the start of
the string and `.` does not cross a newline, so everything consumed by the
pattern lies on the first line.  The alternation first tries the empty `^`
branch (token at position 0); otherwise the greedy `.* ` branch places the
token right after a space, trying the rightmost space first.  `\d+` is a
greedy ASCII digit run followed by the literal `:` (a shorter digit run
would put a digit where `:` must match, so only the maximal run can
succeed), `\w{12}` is exactly twelve ASCII word characters, and the trailing
`.*` is unconstrained.  On success the function returns group 3, the twelve
word characters; otherwise it falls through and returns `None`. -/

/-- Python's `\w` (ASCII, no re.UNICODE): letters, digits, underscore. -/
def isWordChar (c : Char) : Bool := c.isAlphanum || c == '_'

/-- Attempt `(\d+):(\w{12})` at the head of the remaining input, given the
digit run already stripped: the head must be `:` followed by at least twelve
word characters; returns the twelve-character group. -/
def tryAtTail : List Char → Option (List Char)
  | [] => none
  | c :: rest =>
    if c = ':' then
      if (rest.take 12).length == 12 && (rest.take 12).all isWordChar then
        some (rest.take 12)
      else none
    else none

/-- Attempt `(\d+):(\w{12})` at the head of `s`: a nonempty maximal digit
run, then `tryAtTail`. -/
def tryAt (s : List Char) : Option (List Char) :=
  if (s.takeWhile Char.isDigit).isEmpty then none
  else tryAtTail (s.drop (s.takeWhile Char.isDigit).length)

/-- The `.* ` branch: try the token after each space, rightmost space
first (greedy `.*` with backtracking). -/
def scanRightmost (s : List Char) : Option (List Char) :=
  match s with
  | [] => none
  | c :: cs =>
    match scanRightmost cs with
    | some h0 => some h0
    | none => if c = ' ' then tryAt cs else none

/-- The portion of the input the regex can see: `.` never matches a
newline. -/
def firstLine (s : List Char) : List Char := s.takeWhile (fun c => !(c == '\n'))

/-- `getCsetHashFromBisectMsg` (lines 32-37): the `^` branch first, then the
`.* ` branch; `None` when the regex does not match. -/
def getCsetHashFromBisectMsg (s : List Char) : Option (List Char) :=
  match tryAt (firstLine s) with
  | some h0 => some h0
  | none => scanRightmost (firstLine s)

/-- A `<decimal number>:<12 word characters>` token at the head of `s`. -/
def tokenShape (s : List Char) : Prop :=
  ∃ ds hs rest : List Char, s = ds ++ ':' :: (hs ++ rest) ∧ ds ≠ []
    ∧ ds.all Char.isDigit = true ∧ hs.length = 12 ∧ hs.all isWordChar = true

/-- The first line contains such a token at the start of the string or
immediately preceded by a space. -/
def hasCsetToken (s : List Char) : Prop :=
  tokenShape (firstLine s)
  ∨ ∃ j : Nat, (firstLine s)[j]? = some ' '
      ∧ tokenShape ((firstLine s).drop (j + 1))

/-- The exception message of src/core/bisect.py line 236. -/
def hgNoCsetMsg : String := "hg did not suggest a changeset to test!"

/-- Lines 231-248 of `bisectLabel`: parse the next candidate out of hg's
first output line; if hg suggested none, reset and raise (lines 232-236),
otherwise update the window (lines 238-248) and return the new candidate
with the new boundaries. -/
def bisectLabelNext (hgLabel : String) (line0 startRepo endRepo : List Char) :
    Except String (List Char × List Char × List Char) :=
  match getCsetHashFromBisectMsg line0 with
  | none => Except.error hgNoCsetMsg
  | some currRev => Except.ok (currRev, updateWindow hgLabel currRev startRepo endRepo)

/-! ## Blame verifier (src/core/bisect.py lines 131-166) -/

/-- `hgCmds.isAncestor` (src/util/hgCmds.py lines 95-96): `a` is an ancestor
of `b` iff the common ancestor of `a` and `b` is `a` itself, i.e. `b` is a
descendant of `a`.  The common-ancestor query (an `hg log` invocation) is
abstracted as a function `ca`. -/
def isAncestor (ca : String → String → String) (a b : String) : Bool :=
  ca a b == a

/-- The label a parent ends up with in `checkBlameParents`: the label
recorded during the search if present (`labels[p]`), otherwise the
evaluator's answer obtained at line 154. -/
def finalLabel (labels : String → Option String) (evalLabel : String → String)
    (p : String) : String :=
  (labels p).getD (evalLabel p)

/-- The per-parent loop of `checkBlameParents` (lines 142-166), threading
the `bisectLied` and `missedCommonAncestor` flags.  For an untested parent
(`labels.get(p) is None`, line 144) the ancestry check of lines 148-153 may
set `missedCommonAncestor`; lines 160-166 then compare the parent's label
with the blamed label: `'skip'` is ignored, a matching label sets
`bisectLied`, and a label that is neither the blamed one nor its opposite
trips the `assert` at line 166 (the dict lookup there raises `KeyError`
when the blamed label is not `'good'`/`'bad'`).  The `labels[p]` assignment
at line 155 only matters for a duplicated parent entry, which `hg parent`
cannot produce, so the label map is not threaded. -/
def checkBlameFold (blamedGoodOrBad : String) (labels : String → Option String)
    (evalLabel : String → String) (ca : String → String → String)
    (startRepo endRepo : String) :
    List String → Bool → Bool → Except String (Bool × Bool)
  | [], lied, missed => Except.ok (lied, missed)
  | p :: ps, lied, missed =>
    let missed' := if (labels p).isNone && !(isAncestor ca startRepo p)
        && !(isAncestor ca endRepo p) then true else missed
    if finalLabel labels evalLabel p == "skip" then
      checkBlameFold blamedGoodOrBad labels evalLabel ca startRepo endRepo ps lied missed'
    else if finalLabel labels evalLabel p == blamedGoodOrBad then
      checkBlameFold blamedGoodOrBad labels evalLabel ca startRepo endRepo ps true missed'
    else
      match (if blamedGoodOrBad == "good" then some "bad"
             else if blamedGoodOrBad == "bad" then some "good" else none) with
      | none => Except.error "KeyError"
      | some opp =>
        if finalLabel labels evalLabel p == opp then
          checkBlameFold blamedGoodOrBad labels evalLabel ca startRepo endRepo ps lied missed'
        else Except.error "AssertionError"

/-- `checkBlameParents` (lines 131-166, flag computation): `none` when the
blamed revision has a single parent (early return at lines 139-140),
otherwise the `(bisectLied, missedCommonAncestor)` flags that lines 169-188
report on. -/
def checkBlameParents (blamedGoodOrBad : String) (labels : String → Option String)
    (evalLabel : String → String) (ca : String → String → String)
    (startRepo endRepo : String) (parents : List String) :
    Except String (Option (Bool × Bool)) :=
  if parents.length = 1 then Except.ok none
  else (checkBlameFold blamedGoodOrBad labels evalLabel ca startRepo endRepo
    parents false false).map some

/-! ## Theorems -/

theorem searchLoop_aux (labels : List String) : ∀ ic sc : Nat, sc ≤ 20 →
    ((searchLoop labels ic sc).1 = LoopExit.skipAbort ↔
      20 < sc + labels.countP (fun l => l == "skip"))
    ∧ (searchLoop labels ic sc).2.2 =
        min (sc + labels.countP (fun l => l == "skip")) 21 := by
  induction labels with
  | nil =>
    intro ic sc hsc
    constructor <;> simp [searchLoop] <;> omega
  | cons l ls ih =>
    intro ic sc hsc
    by_cases hl : (l == "skip") = true
    · by_cases hc : 20 < sc + 1
      · have h1 : searchLoop (l :: ls) ic sc = (LoopExit.skipAbort, ic, sc + 1) := by
          simp [searchLoop, hl, hc]
        rw [h1]
        simp only [List.countP_cons, hl, if_true]
        refine ⟨iff_of_true trivial (by omega), ?_⟩
        show sc + 1 = min (sc + (List.countP (fun x => x == "skip") ls + 1)) 21
        omega
      · have h1 : searchLoop (l :: ls) ic sc = searchLoop ls (ic + 1) (sc + 1) := by
          simp [searchLoop, hl, hc]
        have h2 := ih (ic + 1) (sc + 1) (by omega)
        constructor
        · rw [h1, h2.1]
          simp only [List.countP_cons, hl, if_true]
          omega
        · rw [h1, h2.2]
          simp only [List.countP_cons, hl, if_true]
          congr 1
          omega
    · have hl' : (l == "skip") = false := by
        cases h : (l == "skip")
        · rfl
        · exact absurd h hl
      have h1 : searchLoop (l :: ls) ic sc = searchLoop ls (ic + 1) sc := by
        simp [searchLoop, hl']
      have h2 := ih (ic + 1) sc hsc
      constructor
      · rw [h1, h2.1]
        simp [List.countP_cons, hl']
      · rw [h1, h2.2]
        simp [List.countP_cons, hl']

/-- C1: in the search loop the skip counter increases by exactly 1 per SKIP
label and by 0 per GOOD/BAD label (so the final counter is the number of
SKIP answers, capped at 21 where the loop stops), and the loop aborts if and
only if the skip counter exceeds 20. -/
theorem skip_counter_spec (labels : List String) :
    ((searchLoop labels 1 0).1 = LoopExit.skipAbort ↔
      20 < labels.countP (fun l => l == "skip"))
    ∧ (searchLoop labels 1 0).2.2 = min (labels.countP (fun l => l == "skip")) 21 := by
  have h := searchLoop_aux labels 1 0 (by omega)
  simpa using h

theorem searchLoop_no_skip : ∀ (labels : List String),
    (∀ l ∈ labels, (l == "skip") = false) →
    ∀ ic sc : Nat, searchLoop labels ic sc = (LoopExit.exhausted, ic + labels.length, sc) := by
  intro labels
  induction labels with
  | nil =>
    intro _ ic sc
    simp [searchLoop]
  | cons l ls ih =>
    intro h ic sc
    have hl : (l == "skip") = false := h l (List.mem_cons_self l ls)
    have h1 : searchLoop (l :: ls) ic sc = searchLoop ls (ic + 1) sc := by
      simp [searchLoop, hl]
    have harr : ic + 1 + ls.length = ic + (l :: ls).length := by
      simp [List.length_cons]
      omega
    rw [h1, ih (fun l' hm => h l' (List.mem_cons_of_mem l hm)) (ic + 1) sc, harr]

/-- C3 (code bug): a run in which the evaluator answers `"good"` 150 times
performs 150 iterations — `iter_count` reaches 151, strictly more than
`MAX_ITERATIONS` — and the loop neither aborts nor stops: the code never
compares `iter_count` with `MAX_ITERATIONS`. -/
theorem iteration_cap_not_enforced :
    searchLoop (List.replicate 150 "good") 1 0 = (LoopExit.exhausted, 151, 0)
    ∧ MAX_ITERATIONS < 151 := by
  constructor
  · have h := searchLoop_no_skip (List.replicate 150 "good")
      (by
        intro l hm
        rw [List.eq_of_mem_replicate hm]
        decide) 1 0
    rw [h]
    norm_num
  · decide

/-- C2: baseline establishment fails whenever the two endpoint
classifications are equal or either is SKIP, and succeeds exactly when the
end revision is BAD and the start revision is GOOD. -/
theorem establish_baseline_spec (er sr : Option String) :
    ((classifyResult er = classifyResult sr ∨ classifyResult er = Classification.skip
        ∨ classifyResult sr = Classification.skip) → establish_baseline er sr = false)
    ∧ (establish_baseline er sr = true ↔
        (classifyResult er = Classification.bad ∧ classifyResult sr = Classification.good)) := by
  have hiff : establish_baseline er sr = true ↔
      (classifyResult er = Classification.bad ∧ classifyResult sr = Classification.good) := by
    match er with
    | none => simp [establish_baseline, classifyResult]
    | some s =>
      by_cases hs : s = "skip"
      · subst hs
        simp [establish_baseline, classifyResult]
      · match sr with
        | none => simp [establish_baseline, classifyResult, hs]
        | some t =>
          by_cases ht : t = "skip" <;>
            simp [establish_baseline, classifyResult, hs, ht]
  refine ⟨?_, hiff⟩
  intro hdisj
  by_contra hne
  have htrue : establish_baseline er sr = true := by
    cases h : establish_baseline er sr
    · exact absurd h hne
    · rfl
  obtain ⟨hbad, hgood⟩ := hiff.mp htrue
  rcases hdisj with h | h | h
  · rw [hbad, hgood] at h; exact Classification.noConfusion h
  · rw [hbad] at h; exact Classification.noConfusion h
  · rw [hgood] at h; exact Classification.noConfusion h

/-- Witness for C2 at a concrete input: both endpoints produce the same
crash signature, so establishment fails. -/
theorem establish_baseline_spec_witness :
    establish_baseline (some "sig0") (some "sig0") = false :=
  (establish_baseline_spec (some "sig0") (some "sig0")).1 (Or.inl (by decide))

/-- C4: the window update of `bisectLabel` sets the bad boundary (`end`) to
the candidate on `'bad'`, the good boundary (`start`) to the candidate on
`'good'`, and leaves both boundaries unchanged on `'skip'`; in each case the
boundary not named by the label keeps its value. -/
theorem updateWindow_spec (c st en : List Char) :
    updateWindow "bad" c st en = (st, c)
    ∧ updateWindow "good" c st en = (c, en)
    ∧ updateWindow "skip" c st en = (st, en) :=
  ⟨rfl, rfl, rfl⟩

/-- C8 (code bug): the cleanup phase of `Bisector.bisect` is not reached on
any exit path — `blamedRev` is not among the names bound in the function, so
line 119 raises `NameError` before the cleanup at lines 123-128. -/
theorem cleanup_not_reached :
    cleanupReached bisectLocalNames = false
    ∧ bisectLocalNames.contains "blamedRev" = false := by
  constructor
  · rfl
  · rfl

/-! ### Split/join lemmas -/

theorem pySplit_cons (sep c : Char) (cs : List Char) :
    pySplit sep (c :: cs) =
      if c = sep then [] :: pySplit sep cs else consHead c (pySplit sep cs) := rfl

theorem pySplit_ne_nil (sep : Char) : ∀ l : List Char, pySplit sep l ≠ [] := by
  intro l
  induction l with
  | nil => simp [pySplit]
  | cons c cs ih =>
    rw [pySplit_cons]
    split
    · simp
    · cases hs : pySplit sep cs <;> simp [consHead]

theorem mem_pySplit_not_sep (sep : Char) :
    ∀ (l t : List Char), t ∈ pySplit sep l → sep ∉ t := by
  intro l
  induction l with
  | nil =>
    intro t ht
    simp [pySplit] at ht
    simp [ht]
  | cons c cs ih =>
    intro t ht
    rw [pySplit_cons] at ht
    split at ht
    · rcases List.mem_cons.mp ht with rfl | ht'
      · simp
      · exact ih t ht'
    · rename_i h
      cases hs : pySplit sep cs with
      | nil => exact absurd hs (pySplit_ne_nil sep cs)
      | cons t0 ts =>
        rw [hs] at ht
        simp only [consHead] at ht
        rcases List.mem_cons.mp ht with rfl | ht'
        · intro hmem
          rcases List.mem_cons.mp hmem with h1 | h2
          · exact h h1.symm
          · exact ih t0 (by rw [hs]; exact List.mem_cons_self t0 ts) h2
        · exact ih t (by rw [hs]; exact List.mem_cons_of_mem t0 ht')

theorem mem_pySplit_mem (sep : Char) :
    ∀ (l t : List Char), t ∈ pySplit sep l → ∀ c ∈ t, c ∈ l := by
  intro l
  induction l with
  | nil =>
    intro t ht
    simp [pySplit] at ht
    simp [ht]
  | cons c cs ih =>
    intro t ht
    rw [pySplit_cons] at ht
    split at ht
    · rcases List.mem_cons.mp ht with rfl | ht'
      · simp
      · intro c' hc'
        exact List.mem_cons_of_mem c (ih t ht' c' hc')
    · cases hs : pySplit sep cs with
      | nil => exact absurd hs (pySplit_ne_nil sep cs)
      | cons t0 ts =>
        rw [hs] at ht
        simp only [consHead] at ht
        rcases List.mem_cons.mp ht with rfl | ht'
        · intro c' hc'
          rcases List.mem_cons.mp hc' with rfl | h2
          · exact List.mem_cons_self c' cs
          · exact List.mem_cons_of_mem c
              (ih t0 (by rw [hs]; exact List.mem_cons_self t0 ts) c' h2)
        · intro c' hc'
          exact List.mem_cons_of_mem c
            (ih t (by rw [hs]; exact List.mem_cons_of_mem t0 ht') c' hc')

theorem pyJoin_split (sep : Char) : ∀ l : List Char, pyJoin sep (pySplit sep l) = l := by
  intro l
  induction l with
  | nil => rfl
  | cons c cs ih =>
    rw [pySplit_cons]
    split
    · rename_i h
      cases hs : pySplit sep cs with
      | nil => exact absurd hs (pySplit_ne_nil sep cs)
      | cons t0 ts =>
        rw [hs] at ih
        show sep :: pyJoin sep (t0 :: ts) = c :: cs
        rw [ih, h]
    · cases hs : pySplit sep cs with
      | nil => exact absurd hs (pySplit_ne_nil sep cs)
      | cons t0 ts =>
        rw [hs] at ih
        cases ts with
        | nil =>
          show c :: t0 = c :: cs
          rw [show pyJoin sep [t0] = t0 from rfl] at ih
          rw [ih]
        | cons t1 ts' =>
          show (c :: t0) ++ sep :: pyJoin sep (t1 :: ts') = c :: cs
          rw [show pyJoin sep (t0 :: t1 :: ts') = t0 ++ sep :: pyJoin sep (t1 :: ts')
            from rfl] at ih
          simp only [List.cons_append]
          rw [ih]

theorem pyJoin_append_last (sep : Char) (t : List Char) :
    ∀ ts : List (List Char), ts ≠ [] →
      pyJoin sep (ts ++ [t]) = pyJoin sep ts ++ sep :: t := by
  intro ts
  induction ts with
  | nil => intro h; exact absurd rfl h
  | cons t0 ts ih =>
    intro _
    cases ts with
    | nil => rfl
    | cons t1 ts' =>
      show t0 ++ sep :: pyJoin sep ((t1 :: ts') ++ [t]) =
        (t0 ++ sep :: pyJoin sep (t1 :: ts')) ++ sep :: t
      rw [ih (by simp)]
      simp [List.append_assoc]

theorem pyJoin_dropLast_isPre (sep : Char) (l : List Char) :
    pyJoin sep ((pySplit sep l).dropLast) <+: l := by
  have hne := pySplit_ne_nil sep l
  by_cases hd : (pySplit sep l).dropLast = []
  · rw [hd]
    exact List.nil_prefix
  · have hdec := List.dropLast_append_getLast hne
    have hsplit : pyJoin sep (pySplit sep l) =
        pyJoin sep ((pySplit sep l).dropLast) ++ sep :: (pySplit sep l).getLast hne := by
      conv_lhs => rw [← hdec]
      exact pyJoin_append_last sep _ _ hd
    refine ⟨sep :: (pySplit sep l).getLast hne, ?_⟩
    rw [← hsplit, pyJoin_split]

theorem pySplit_single (sep : Char) : ∀ t : List Char, sep ∉ t → pySplit sep t = [t] := by
  intro t
  induction t with
  | nil => intro _; rfl
  | cons c cs ih =>
    intro h
    have hc : ¬(c = sep) := fun hh => h (by simp [hh])
    rw [pySplit_cons, if_neg hc, ih (fun hm => h (List.mem_cons_of_mem c hm))]
    rfl

theorem pySplit_sep_append (sep : Char) : ∀ t rest : List Char, sep ∉ t →
    pySplit sep (t ++ sep :: rest) = t :: pySplit sep rest := by
  intro t
  induction t with
  | nil =>
    intro rest _
    show pySplit sep (sep :: rest) = [] :: pySplit sep rest
    rw [pySplit_cons, if_pos rfl]
  | cons c cs ih =>
    intro rest h
    have hc : ¬(c = sep) := fun hh => h (by simp [hh])
    show pySplit sep (c :: (cs ++ sep :: rest)) = (c :: cs) :: pySplit sep rest
    rw [pySplit_cons, if_neg hc, ih rest (fun hm => h (List.mem_cons_of_mem c hm))]
    rfl

theorem pySplit_pyJoin (sep : Char) : ∀ ts : List (List Char), ts ≠ [] →
    (∀ t ∈ ts, sep ∉ t) → pySplit sep (pyJoin sep ts) = ts := by
  intro ts
  induction ts with
  | nil => intro h _; exact absurd rfl h
  | cons t0 ts ih =>
    intro _ h
    cases ts with
    | nil =>
      show pySplit sep t0 = [t0]
      exact pySplit_single sep t0 (h t0 (List.mem_cons_self t0 []))
    | cons t1 ts' =>
      show pySplit sep (t0 ++ sep :: pyJoin sep (t1 :: ts')) = t0 :: t1 :: ts'
      rw [pySplit_sep_append sep t0 _ (h t0 (List.mem_cons_self t0 _))]
      rw [ih (by simp) (fun t hm => h t (List.mem_cons_of_mem t0 hm))]

theorem getLastD_mem : ∀ (l : List (List Char)) (d : List Char),
    l ≠ [] → l.getLastD d ∈ l := by
  intro l
  induction l with
  | nil => intro d h; exact absurd rfl h
  | cons t0 ts ih =>
    intro d _
    rw [List.getLastD_cons]
    cases ts with
    | nil => simp [List.getLastD]
    | cons t1 ts' => exact List.mem_cons_of_mem t0 (ih t0 (by simp))

theorem isPrefixOf_true_iff : ∀ (a b : List Char), a.isPrefixOf b = true ↔ a <+: b := by
  intro a
  induction a with
  | nil => intro b; simp [List.isPrefixOf]
  | cons x xs ih =>
    intro b
    cases b with
    | nil => simp [List.isPrefixOf]
    | cons y ys =>
      show ((x == y) && xs.isPrefixOf ys) = true ↔ (x :: xs <+: y :: ys)
      rw [List.cons_prefix_cons]
      simp [Bool.and_eq_true, ih ys]

/-! ### Sanitizer lemmas -/

theorem sanitizeLine_eq (repo line : List Char) :
    sanitizeLine repo line =
      if emailCond line then emailRewrite line
      else if csetCond repo line then csetRewrite line
      else line := rfl

theorem sanitizeLine_no_newline (repo line : List Char) (h : '\n' ∉ line) :
    '\n' ∉ sanitizeLine repo line := by
  rw [sanitizeLine_eq]
  split
  · intro hmem
    have hpre := pyJoin_dropLast_isPre ' ' line
    exact h (hpre.sublist.subset hmem)
  · split
    · intro hmem
      rcases List.mem_append.mp hmem with h1 | h2
      · revert h1
        decide
      · have hne := pySplit_ne_nil ':' line
        have hlast : (pySplit ':' line).getLastD [] ∈ pySplit ':' line :=
          getLastD_mem _ [] hne
        exact h (mem_pySplit_mem ':' line _ hlast '\n' h2)
    · exact h

theorem sanitizeLine_idem (repo line : List Char) (h : lineOK repo line) :
    sanitizeLine repo (sanitizeLine repo line) = sanitizeLine repo line := by
  obtain ⟨h1, h2⟩ := h
  by_cases he : emailCond line = true
  · have hline : sanitizeLine repo line = emailRewrite line := by
      rw [sanitizeLine_eq, if_pos he]
    rw [hline]
    have he2 : emailCond (emailRewrite line) = false := h1 he
    have hc2 : csetCond repo (emailRewrite line) = false := by
      unfold csetCond at h2 ⊢
      cases hin : pyIn mozillaCentralL repo with
      | false => simp [hin]
      | true =>
        rw [hin] at h2
        simp only [Bool.and_true] at h2 ⊢
        cases hp2 : csetPrefixL.isPrefixOf (emailRewrite line) with
        | false => rfl
        | true =>
          exfalso
          have hpre : csetPrefixL <+: emailRewrite line := (isPrefixOf_true_iff _ _).mp hp2
          have hpre2 : emailRewrite line <+: line := pyJoin_dropLast_isPre ' ' line
          have hh : csetPrefixL.isPrefixOf line = true :=
            (isPrefixOf_true_iff _ _).mpr (hpre.trans hpre2)
          rw [hh] at h2
          exact Bool.noConfusion h2
    rw [sanitizeLine_eq, he2, hc2]
    simp
  · have he' : emailCond line = false := by
      cases hb : emailCond line
      · rfl
      · exact absurd hb he
    have hline : sanitizeLine repo line = line := by
      rw [sanitizeLine_eq, he', h2]
      simp
    rw [hline, hline]

/-- C7 (amended): `sanitizeCsetMsg` is idempotent on every message in which,
for each line, stripping the last space-delimited token of an email-shaped
line removes at least one of `<`, `@`, `>`, and no line fires the
changeset-URL rule. -/
theorem sanitizeCsetMsg_idem (msg repo : List Char)
    (h : ∀ line ∈ pySplit '\n' msg, lineOK repo line) :
    sanitizeCsetMsg (sanitizeCsetMsg msg repo) repo = sanitizeCsetMsg msg repo := by
  unfold sanitizeCsetMsg
  have hne : (pySplit '\n' msg).map (sanitizeLine repo) ≠ [] := by
    intro hh
    exact pySplit_ne_nil '\n' msg (List.map_eq_nil_iff.mp hh)
  have hnn : ∀ t ∈ (pySplit '\n' msg).map (sanitizeLine repo), '\n' ∉ t := by
    intro t ht
    rcases List.mem_map.mp ht with ⟨l0, hl0, rfl⟩
    exact sanitizeLine_no_newline repo l0 (mem_pySplit_not_sep '\n' msg l0 hl0)
  rw [pySplit_pyJoin '\n' _ hne hnn]
  have hmap : ((pySplit '\n' msg).map (sanitizeLine repo)).map (sanitizeLine repo) =
      (pySplit '\n' msg).map (sanitizeLine repo) := by
    rw [List.map_map]
    exact List.map_congr_left (fun l0 hl0 => sanitizeLine_idem repo l0 (h l0 hl0))
  rw [hmap]

/-- Witness for the amended C7 at a concrete input: a standard author line
is sanitised idempotently. -/
theorem sanitizeCsetMsg_idem_witness :
    sanitizeCsetMsg (sanitizeCsetMsg ("John Doe <j@d.com>".toList) []) [] =
      sanitizeCsetMsg ("John Doe <j@d.com>".toList) [] :=
  sanitizeCsetMsg_idem ("John Doe <j@d.com>".toList) [] (by decide)

/-- C7 counterexample: sanitising `"a<@> b"` once yields `"a<@>"`, which
still contains `<`, `@` and `>`, so the second pass strips again and
returns the empty string; `sanitize(sanitize(x)) != sanitize(x)`. -/
theorem sanitizeCsetMsg_not_idem :
    sanitizeCsetMsg (sanitizeCsetMsg ("a<@> b".toList) []) [] ≠
      sanitizeCsetMsg ("a<@> b".toList) [] := by
  decide

/-- C9: per line at most one rewrite applies and the email rule has
priority — a line containing `<`, `@`, `>` is rewritten by the email rule
only (even if it starts with `changeset:`), the changeset-URL rule applies
exactly when the email condition is false and the repo path contains
`mozilla-central`, and otherwise the line is unchanged. -/
theorem sanitizeLine_priority (repo line : List Char) :
    (emailCond line = true → sanitizeLine repo line = emailRewrite line)
    ∧ (emailCond line = false → csetCond repo line = true →
        sanitizeLine repo line = csetRewrite line)
    ∧ (emailCond line = false → csetCond repo line = false →
        sanitizeLine repo line = line) := by
  refine ⟨?_, ?_, ?_⟩
  · intro he
    rw [sanitizeLine_eq, if_pos he]
  · intro he hc
    rw [sanitizeLine_eq, he, hc]
    simp
  · intro he hc
    rw [sanitizeLine_eq, he, hc]
    simp

/-- Witness for C9 at a concrete input: an email-shaped line that also
starts with `changeset:` in a mozilla-central repo is still rewritten by
the email rule. -/
theorem sanitizeLine_priority_witness :
    sanitizeLine ("mozilla-central".toList) ("changeset: x <a@b.c>".toList) =
      emailRewrite ("changeset: x <a@b.c>".toList) :=
  (sanitizeLine_priority ("mozilla-central".toList) ("changeset: x <a@b.c>".toList)).1
    (by decide)

/-! ### Regex-model lemmas -/

theorem takeWhile_all_self (p : Char → Bool) :
    ∀ l : List Char, (l.takeWhile p).all p = true := by
  intro l
  induction l with
  | nil => rfl
  | cons c cs ih =>
    rw [List.takeWhile_cons]
    split
    · rename_i h
      simp [h, ih]
    · rfl

theorem drop_takeWhile_length (p : Char → Bool) :
    ∀ l : List Char, l.drop (l.takeWhile p).length = l.dropWhile p := by
  intro l
  induction l with
  | nil => rfl
  | cons c cs ih =>
    by_cases h : p c = true
    · simp [List.takeWhile_cons, List.dropWhile_cons, h, ih]
    · simp [List.takeWhile_cons, List.dropWhile_cons, h]

theorem takeWhile_append_stop (p : Char → Bool) (x : Char) (hx : p x = false) :
    ∀ (ds r : List Char), ds.all p = true → (ds ++ x :: r).takeWhile p = ds := by
  intro ds
  induction ds with
  | nil =>
    intro r _
    simp [List.takeWhile_cons, hx]
  | cons d ds ih =>
    intro r hall
    rw [List.all_cons, Bool.and_eq_true] at hall
    simp [List.cons_append, List.takeWhile_cons, hall.1, ih r hall.2]

theorem tryAtTail_isSome_iff : ∀ t : List Char,
    (tryAtTail t).isSome = true ↔
      ∃ hs rest : List Char, t = ':' :: (hs ++ rest)
        ∧ hs.length = 12 ∧ hs.all isWordChar = true := by
  intro t
  cases t with
  | nil =>
    constructor
    · intro h
      exact absurd h (by simp [tryAtTail])
    · rintro ⟨hs, rest, heq, _, _⟩
      exact List.noConfusion heq
  | cons c r =>
    by_cases hc : c = ':'
    · subst hc
      rw [show tryAtTail (':' :: r) =
        (if (r.take 12).length == 12 && (r.take 12).all isWordChar then some (r.take 12)
         else none) from rfl]
      constructor
      · intro h
        split at h
        · rename_i hcond
          rw [Bool.and_eq_true, beq_iff_eq] at hcond
          exact ⟨r.take 12, r.drop 12, by rw [List.take_append_drop], hcond.1, hcond.2⟩
        · exact absurd h (by simp)
      · rintro ⟨hs, rest, heq, hlen, hall⟩
        have hr : r = hs ++ rest := by
          injection heq
        subst hr
        have htake : (hs ++ rest).take 12 = hs := by
          rw [← hlen]
          exact List.take_left hs rest
        rw [htake]
        simp [hlen, hall]
    · constructor
      · intro h
        rw [show tryAtTail (c :: r) = none from by simp [tryAtTail, hc]] at h
        exact absurd h (by simp)
      · rintro ⟨hs, rest, heq, _, _⟩
        injection heq with h1 _
        exact absurd h1 hc

theorem tryAt_isSome_iff (s : List Char) : (tryAt s).isSome = true ↔ tokenShape s := by
  unfold tryAt tokenShape
  by_cases hemp : (s.takeWhile Char.isDigit).isEmpty = true
  · rw [if_pos hemp]
    constructor
    · intro h
      exact absurd h (by simp)
    · rintro ⟨ds, hs, rest, heq, hne, hdig, _, _⟩
      have htw : s.takeWhile Char.isDigit = ds := by
        rw [heq]
        exact takeWhile_append_stop Char.isDigit ':' (by decide) ds _ hdig
      rw [htw] at hemp
      cases ds with
      | nil => exact absurd rfl hne
      | cons a as => simp at hemp
  · rw [if_neg hemp]
    rw [drop_takeWhile_length Char.isDigit s]
    rw [tryAtTail_isSome_iff]
    constructor
    · rintro ⟨hs, rest, heq, hlen, hall⟩
      refine ⟨s.takeWhile Char.isDigit, hs, rest, ?_, ?_, takeWhile_all_self Char.isDigit s,
        hlen, hall⟩
      · rw [← heq]
        exact (List.takeWhile_append_dropWhile Char.isDigit s).symm
      · intro hnil
        rw [hnil] at hemp
        exact hemp rfl
    · rintro ⟨ds, hs, rest, heq, hne, hdig, hlen, hall⟩
      have htw : s.takeWhile Char.isDigit = ds := by
        rw [heq]
        exact takeWhile_append_stop Char.isDigit ':' (by decide) ds _ hdig
      have hdw : s.dropWhile Char.isDigit = ':' :: (hs ++ rest) := by
        have h2 : s.takeWhile Char.isDigit ++ s.dropWhile Char.isDigit = s :=
          List.takeWhile_append_dropWhile Char.isDigit s
        rw [htw] at h2
        have h3 : ds ++ s.dropWhile Char.isDigit = ds ++ ':' :: (hs ++ rest) :=
          h2.trans heq
        exact List.append_cancel_left h3
      rw [hdw]
      exact ⟨hs, rest, rfl, hlen, hall⟩

theorem scanRightmost_isSome_iff : ∀ l : List Char,
    (scanRightmost l).isSome = true ↔
      ∃ j : Nat, l[j]? = some ' ' ∧ (tryAt (l.drop (j + 1))).isSome = true := by
  intro l
  induction l with
  | nil =>
    constructor
    · intro h
      exact absurd h (by simp [scanRightmost])
    · rintro ⟨j, hj, _⟩
      simp at hj
  | cons c cs ih =>
    constructor
    · intro h
      unfold scanRightmost at h
      split at h
      · rename_i h0 hrec
        rcases ih.mp (by rw [hrec]; rfl) with ⟨j, hj, ht⟩
        exact ⟨j + 1, by simpa using hj, by simpa using ht⟩
      · split at h
        · rename_i hc
          exact ⟨0, by simp [hc], by simpa using h⟩
        · exact absurd h (by simp)
    · rintro ⟨j, hj, ht⟩
      unfold scanRightmost
      split
      · rfl
      · rename_i hrec
        cases j with
        | zero =>
          have hc : c = ' ' := by simpa using hj
          rw [if_pos hc]
          simpa using ht
        | succ j' =>
          exfalso
          have hsome : (scanRightmost cs).isSome = true :=
            ih.mpr ⟨j', by simpa using hj, by simpa using ht⟩
          rw [hrec] at hsome
          exact Bool.noConfusion hsome

/-- C10: `getCsetHashFromBisectMsg` returns a hash exactly when the first
line contains a `<decimal number>:<12 word characters>` token at the start
of the string or right after a space, and `bisectLabel` raises the
"hg did not suggest a changeset" error exactly when the result is `None`. -/
theorem getCsetHash_spec (s : List Char) :
    ((getCsetHashFromBisectMsg s).isSome = true ↔ hasCsetToken s)
    ∧ ∀ (lbl : String) (st en : List Char),
        bisectLabelNext lbl s st en = Except.error hgNoCsetMsg ↔
          getCsetHashFromBisectMsg s = none := by
  constructor
  · unfold getCsetHashFromBisectMsg hasCsetToken
    cases htry : tryAt (firstLine s) with
    | some h0 =>
      constructor
      · intro _
        exact Or.inl ((tryAt_isSome_iff (firstLine s)).mp (by rw [htry]; rfl))
      · intro _
        rfl
    | none =>
      constructor
      · intro h
        rcases (scanRightmost_isSome_iff (firstLine s)).mp h with ⟨j, hj, ht⟩
        exact Or.inr ⟨j, hj, (tryAt_isSome_iff _).mp ht⟩
      · rintro (hts | ⟨j, hj, hts⟩)
        · exfalso
          have hx := (tryAt_isSome_iff (firstLine s)).mpr hts
          rw [htry] at hx
          exact Bool.noConfusion hx
        · exact (scanRightmost_isSome_iff (firstLine s)).mpr
            ⟨j, hj, (tryAt_isSome_iff _).mpr hts⟩
  · intro lbl st en
    unfold bisectLabelNext
    cases hres : getCsetHashFromBisectMsg s with
    | none => simp
    | some c =>
      constructor
      · intro h
        exact Except.noConfusion h
      · intro h
        exact Option.noConfusion h

/-- Witness for C10 at the concrete input asserted by hgCmds.py line 39. -/
theorem getCsetHash_spec_witness :
    getCsetHashFromBisectMsg ("x 12345:abababababab".toList)
      = some ("abababababab".toList)
    ∧ hasCsetToken ("x 12345:abababababab".toList) := by
  constructor
  · decide
  · exact (getCsetHash_spec ("x 12345:abababababab".toList)).1.mp (by decide)

/-! ### Blame-verifier lemmas -/

theorem checkBlameFold_spec (labels : String → Option String)
    (evalLabel : String → String) (ca : String → String → String)
    (startRepo endRepo : String) (blamed : String)
    (hb : blamed = "good" ∨ blamed = "bad") :
    ∀ parents : List String,
      (∀ p ∈ parents, finalLabel labels evalLabel p = "good"
        ∨ finalLabel labels evalLabel p = "bad"
        ∨ finalLabel labels evalLabel p = "skip") →
      ∀ lied missed : Bool,
        checkBlameFold blamed labels evalLabel ca startRepo endRepo parents lied missed
          = Except.ok
            (lied || parents.any (fun q => finalLabel labels evalLabel q == blamed),
             missed || parents.any (fun q => (labels q).isNone
               && !(isAncestor ca startRepo q) && !(isAncestor ca endRepo q))) := by
  intro parents
  induction parents with
  | nil =>
    intro _ lied missed
    simp [checkBlameFold]
  | cons p ps ih =>
    intro hl lied missed
    have hlbl := hl p (List.mem_cons_self p ps)
    have ihx := ih (fun q hq => hl q (List.mem_cons_of_mem p hq))
    rcases hb with rfl | rfl <;> rcases hlbl with hfl | hfl | hfl <;>
      cases hgp : ((labels p).isNone && !(isAncestor ca startRepo p)
        && !(isAncestor ca endRepo p)) <;>
      simp [checkBlameFold, hfl, hgp, ihx]

/-- C5: the blame verifier sets `bisectLied` exactly when some parent of the
blamed merge ends up with the same good/bad label as the blamed revision;
parents labelled `skip` or with the opposite label never set it. -/
theorem checkBlame_lied_iff (labels : String → Option String)
    (evalLabel : String → String) (ca : String → String → String)
    (startRepo endRepo : String) (blamed : String) (parents : List String)
    (hb : blamed = "good" ∨ blamed = "bad")
    (hl : ∀ p ∈ parents, finalLabel labels evalLabel p = "good"
      ∨ finalLabel labels evalLabel p = "bad"
      ∨ finalLabel labels evalLabel p = "skip")
    (hp : parents.length ≠ 1) :
    ∀ lied missed : Bool,
      checkBlameParents blamed labels evalLabel ca startRepo endRepo parents
        = Except.ok (some (lied, missed)) →
      (lied = true ↔ ∃ p ∈ parents, finalLabel labels evalLabel p = blamed) := by
  intro lied missed hres
  unfold checkBlameParents at hres
  rw [if_neg hp, checkBlameFold_spec labels evalLabel ca startRepo endRepo blamed hb
    parents hl false false] at hres
  simp only [Except.map, Except.ok.injEq, Option.some.injEq, Prod.mk.injEq,
    Bool.false_or] at hres
  rw [← hres.1]
  simp [List.any_eq_true, beq_iff_eq]

/-- Witness for C5 at a concrete input: the first parent shares the blamed
label `'bad'`, so the contradiction flag is set and a matching parent
exists. -/
theorem checkBlame_lied_iff_witness :
    ∃ p ∈ (["p1", "p2"] : List String),
      finalLabel (fun q => if q == "p1" then some "bad" else some "good")
        (fun _ => "good") p = "bad" :=
  (checkBlame_lied_iff (fun q => if q == "p1" then some "bad" else some "good")
      (fun _ => "good") (fun _ _ => "root") "s" "e" "bad" ["p1", "p2"]
      (Or.inr rfl) (by decide) (by decide) true false rfl).mp rfl

/-- C6 counterexample: both parents are already labelled, and both descend
from neither endpoint, yet `checkBlameParents` reports
`missedCommonAncestor = false` — the ancestry check is skipped for
already-tested parents. -/
theorem checkBlame_missedCA_cex :
    ¬ (∀ (labels : String → Option String) (evalLabel : String → String)
        (ca : String → String → String) (startRepo endRepo : String)
        (parents : List String) (lied missed : Bool),
        checkBlameParents "bad" labels evalLabel ca startRepo endRepo parents
          = Except.ok (some (lied, missed)) →
        (∃ p ∈ parents, isAncestor ca startRepo p = false
          ∧ isAncestor ca endRepo p = false) →
        missed = true) := by
  intro hclaim
  have h := hclaim (fun _ => some "good") (fun _ => "good") (fun _ _ => "root") "s" "e"
    ["p1", "p2"] false false rfl ⟨"p1", by decide, rfl, rfl⟩
  exact Bool.noConfusion h

/-- C6 (amended): the blame verifier performs the descendant-of-start /
descendant-of-end check only for parents not already labelled during the
search, and sets `missedCommonAncestor` exactly when some such unlabelled
parent is a descendant of neither endpoint. -/
theorem checkBlame_missedCA_iff (labels : String → Option String)
    (evalLabel : String → String) (ca : String → String → String)
    (startRepo endRepo : String) (blamed : String) (parents : List String)
    (hb : blamed = "good" ∨ blamed = "bad")
    (hl : ∀ p ∈ parents, finalLabel labels evalLabel p = "good"
      ∨ finalLabel labels evalLabel p = "bad"
      ∨ finalLabel labels evalLabel p = "skip")
    (hp : parents.length ≠ 1) :
    ∀ lied missed : Bool,
      checkBlameParents blamed labels evalLabel ca startRepo endRepo parents
        = Except.ok (some (lied, missed)) →
      (missed = true ↔ ∃ p ∈ parents, (labels p).isNone = true
        ∧ isAncestor ca startRepo p = false ∧ isAncestor ca endRepo p = false) := by
  intro lied missed hres
  unfold checkBlameParents at hres
  rw [if_neg hp, checkBlameFold_spec labels evalLabel ca startRepo endRepo blamed hb
    parents hl false false] at hres
  simp only [Except.map, Except.ok.injEq, Option.some.injEq, Prod.mk.injEq,
    Bool.false_or] at hres
  rw [← hres.2]
  simp [List.any_eq_true, Bool.and_eq_true, Bool.not_eq_true', and_assoc]

/-- Witness for the amended C6 at a concrete input: one unlabelled parent
descending from neither endpoint sets the flag. -/
theorem checkBlame_missedCA_iff_witness :
    ∃ p ∈ (["p1", "p2"] : List String),
      ((fun q => if q == "p1" then none else some "good") p : Option String).isNone = true
      ∧ isAncestor (fun _ _ => "root") "s" p = false
      ∧ isAncestor (fun _ _ => "root") "e" p = false :=
  (checkBlame_missedCA_iff (fun q => if q == "p1" then none else some "good")
      (fun _ => "good") (fun _ _ => "root") "s" "e" "bad" ["p1", "p2"]
      (Or.inr rfl) (by decide) (by decide) false true rfl).mp rfl

end Autobisect
